import Mathlib

/-!
Shallow embedding of the computational core of the trosset_app repository
(bakery B2B operations): unit conversion, costing, batch planning,
ingredient consolidation, the stock ledger and order deletion, together
with proofs checking the natural-language specification against the code.
Numbers are modelled over ℚ (the source operates on JS numbers; the
spec's properties are stated up to floating-point tolerance, i.e. exactly
over the rationals).
-/

/-- Units of measure supported by the inventory module
(src/lib/utils/unitConversions.ts, UnitType). -/
inductive UnitType
  | kg | g | mg | L | ml | pz | bulto | caja | saco
deriving DecidableEq, Repr

/-- Conversion factor of each unit to its dimension base (kg for weight,
L for volume); piece units carry factor 1 (CONVERSION_FACTORS in
unitConversions.ts). -/
def CONVERSION_FACTORS : UnitType → ℚ
  | UnitType.kg => 1
  | UnitType.g => 1 / 1000
  | UnitType.mg => 1 / 1000000
  | UnitType.L => 1
  | UnitType.ml => 1 / 1000
  | UnitType.pz => 1
  | UnitType.bulto => 1
  | UnitType.caja => 1
  | UnitType.saco => 1

/-- WEIGHT_UNITS from unitConversions.ts. -/
def WEIGHT_UNITS : List UnitType := [UnitType.kg, UnitType.g, UnitType.mg]

/-- VOLUME_UNITS from unitConversions.ts. -/
def VOLUME_UNITS : List UnitType := [UnitType.L, UnitType.ml]

/-- PIECE_UNITS from unitConversions.ts. -/
def PIECE_UNITS : List UnitType :=
  [UnitType.pz, UnitType.bulto, UnitType.caja, UnitType.saco]

/-- areUnitsCompatible from unitConversions.ts: true iff both units are
weight units or both are volume units. -/
def areUnitsCompatible (unit1 unit2 : UnitType) : Bool :=
  let isWeight1 := WEIGHT_UNITS.contains unit1
  let isWeight2 := WEIGHT_UNITS.contains unit2
  let isVolume1 := VOLUME_UNITS.contains unit1
  let isVolume2 := VOLUME_UNITS.contains unit2
  (isWeight1 && isWeight2) || (isVolume1 && isVolume2)

/-- convertUnit from unitConversions.ts: identity when the units are equal,
conversion through the base-unit factors when compatible, none otherwise. -/
def convertUnit (quantity : ℚ) (fromUnit toUnit : UnitType) : Option ℚ :=
  if fromUnit = toUnit then some quantity
  else if areUnitsCompatible fromUnit toUnit then
    some (quantity * CONVERSION_FACTORS fromUnit / CONVERSION_FACTORS toUnit)
  else none

/-- calculateCost from unitConversions.ts: converts the quantity to the
purchase unit and multiplies by the purchase cost; none when the units are
incompatible. -/
def calculateCost (quantity : ℚ) (quantityUnit : UnitType)
    (purchaseCost : ℚ) (purchaseUnit : UnitType) : Option ℚ :=
  if areUnitsCompatible quantityUnit purchaseUnit then
    match convertUnit quantity quantityUnit purchaseUnit with
    | none => none
    | some q => some (q * purchaseCost)
  else none

/-- getUnitCost from unitConversions.ts: purchase cost divided by the number
of target units per purchase unit; none when the units are incompatible. -/
def getUnitCost (purchaseCost : ℚ) (purchaseUnit targetUnit : UnitType) :
    Option ℚ :=
  if areUnitsCompatible purchaseUnit targetUnit then
    match convertUnit 1 purchaseUnit targetUnit with
    | none => none
    | some conversion => some (purchaseCost / conversion)
  else none

/-- calculateMargin from src/lib/utils/calculations.ts: guards on the selling
price being zero and otherwise divides the difference by the selling price. -/
def calculateMargin (sellingPrice cost : ℚ) : ℚ :=
  if sellingPrice = 0 then 0
  else (sellingPrice - cost) / sellingPrice * 100

/-- calculateCostPerProductUnit from
src/app/inventarios/productos/nuevo/page.tsx, as a function of the total
recipe cost and of the result of parseInt(formData.batch_size_units)
(none models NaN). The JS expression parseInt(...) || 1 turns 0 and NaN
into 1; the guard batchSize > 0 then returns totalCost / batchSize, and 0
otherwise. -/
def calculateCostPerProductUnit (totalCost : ℚ) (parsedBatchSize : Option ℤ) :
    ℚ :=
  let batchSize : ℤ :=
    match parsedBatchSize with
    | none => 1
    | some n => if n = 0 then 1 else n
  if 0 < batchSize then totalCost / (batchSize : ℚ) else 0

/-- Loop of calculateBatches (src/lib/utils/calculations.ts): while
remaining > 0, push min(remaining, batchSize) and subtract it from
remaining. The conjunct 0 < batchSize records the guard of
calculateBatches, which is what makes the source's while loop terminate. -/
def calcBatchesLoop (batchSize remaining : ℚ) : List ℚ :=
  if h : 0 < batchSize ∧ 0 < remaining then
    min remaining batchSize ::
      calcBatchesLoop batchSize (remaining - min remaining batchSize)
  else []
termination_by (⌈remaining / batchSize⌉).toNat
decreasing_by
  obtain ⟨hb, hr⟩ := h
  rcases le_total remaining batchSize with hle | hle
  · have h1 : 0 < ⌈remaining / batchSize⌉ := Int.ceil_pos.mpr (div_pos hr hb)
    simp only [min_eq_left hle, sub_self, zero_div, Int.ceil_zero]
    omega
  · have h1 : 0 < ⌈remaining / batchSize⌉ := Int.ceil_pos.mpr (div_pos hr hb)
    have h2 : (remaining - batchSize) / batchSize = remaining / batchSize - 1 := by
      rw [sub_div, div_self (ne_of_gt hb)]
    simp only [min_eq_right hle, h2, Int.ceil_sub_one]
    omega

/-- calculateBatches from src/lib/utils/calculations.ts: empty on
non-positive inputs, otherwise the while loop above. -/
def calculateBatches (totalUnits batchSize : ℚ) : List ℚ :=
  if totalUnits ≤ 0 ∨ batchSize ≤ 0 then []
  else calcBatchesLoop batchSize totalUnits

/-- calculateBatchCount from src/lib/utils/calculations.ts: 0 on
non-positive inputs, otherwise Math.ceil(totalUnits / batchSize). -/
def calculateBatchCount (totalUnits batchSize : ℚ) : ℤ :=
  if totalUnits ≤ 0 ∨ batchSize ≤ 0 then 0
  else ⌈totalUnits / batchSize⌉

/-- Order row as read by deleteOrder (orders table: id and status). -/
structure OrderRow where
  id : String
  status : String
deriving DecidableEq, Repr

/-- deleteOrder from src/actions/orders.ts: reads the order's status; when
it is not the string pending (also when no such order exists) it returns an
error and changes nothing; otherwise it deletes the row. The Bool is true
exactly on success. -/
def deleteOrder (orders : List OrderRow) (orderId : String) :
    List OrderRow × Bool :=
  let status := (orders.find? (fun o => o.id == orderId)).map
    (fun o => o.status)
  if status ≠ some "pending" then (orders, false)
  else (orders.filter (fun o => !(o.id == orderId)), true)

/-- Stock movement row (stock_movements table). -/
structure StockMovement where
  item_id : String
  qty_change : ℚ
  move_type : String
  notes : String
deriving DecidableEq, Repr

/-- Inventory database state: current_stock per item id (inventory_items)
and the persisted movement rows (stock_movements). -/
structure InvDB where
  stock : List (String × ℚ)
  movements : List StockMovement
deriving DecidableEq, Repr

/-- Current stock of an item; none when the row does not exist. -/
def getStock (db : InvDB) (itemId : String) : Option ℚ :=
  (db.stock.find? (fun p => p.1 == itemId)).map (fun p => p.2)

/-- Update of the current_stock field of one item row. -/
def setStock (db : InvDB) (itemId : String) (v : ℚ) : InvDB :=
  ⟨db.stock.map (fun p => if p.1 == itemId then (p.1, v) else p),
    db.movements⟩

/-- createStockMovement from src/actions/inventory.ts: reads the item's
current stock (error when the row is missing), rejects when
currentStock + qty_change < 0 with nothing persisted, and otherwise
appends the movement row and sets current_stock to the new value. The
Bool is true exactly on success. -/
def createStockMovement (db : InvDB) (m : StockMovement) : InvDB × Bool :=
  match getStock db m.item_id with
  | none => (db, false)
  | some currentStock =>
    let newStock := currentStock + m.qty_change
    if newStock < 0 then (db, false)
    else
      (setStock ⟨db.stock, db.movements ++ [m]⟩ m.item_id newStock, true)

/-- Composition row (item_compositions: ingredient and quantity needed per
unit of the parent compound). -/
structure ItemComposition where
  ingredient_item_id : String
  quantity_needed : ℚ
deriving DecidableEq, Repr

/-- createCompoundStock from src/actions/inventory.ts: for every
composition row it inserts a production_usage movement of
-(quantity_needed * quantityProduced) for the ingredient, then inserts an
adjustment movement of quantityProduced for the compound item. It reads no
stock, performs no negativity check, and never updates current_stock. -/
def createCompoundStock (db : InvDB) (compositions : List ItemComposition)
    (compoundItemId : String) (quantityProduced : ℚ) : InvDB × Bool :=
  let deductions : List StockMovement := compositions.map (fun comp =>
    ⟨comp.ingredient_item_id, -(comp.quantity_needed * quantityProduced),
      "production_usage", "Usado para producir mezcla"⟩)
  (⟨db.stock,
    db.movements ++ deductions ++
      [⟨compoundItemId, quantityProduced, "adjustment",
        "Produccion de mezcla"⟩]⟩, true)

/-- Inventory item fields read by consolidateIngredients
(src/actions/planning.ts). -/
structure ItemInfo where
  name : String
  unit_usage : String
  current_stock : ℚ
deriving DecidableEq, Repr

/-- Recipe line of a product (product_recipes joined with its inventory
item; the joined row may be absent). -/
structure RecipeLine where
  inventory_item_id : String
  quantity : ℚ
  inventory_item : Option ItemInfo
deriving DecidableEq, Repr

/-- Production batch joined with the recipes of its product
(production_batches with product.recipes; a missing product yields an
empty recipe list, as in the source's batch.product?.recipes || []). -/
structure BatchRow where
  recipes : List RecipeLine
  total_units_in_batch : ℚ
deriving DecidableEq, Repr

/-- Accumulator entry of the consolidation map (step 2 of
consolidateIngredients). -/
structure IngredientTotal where
  item_id : String
  name : String
  unit : String
  total_needed : ℚ
  current_stock : ℚ
deriving DecidableEq, Repr

/-- Output record of consolidateIngredients (step 3). -/
structure ConsolidatedIngredient where
  item_id : String
  name : String
  unit : String
  total_needed : ℚ
  current_stock : ℚ
  missing : ℚ
  has_enough : Bool
deriving DecidableEq, Repr

/-- JS truthiness fallback on strings: s || dflt, where an absent or empty
string falls back. -/
def jsStringOr (s : Option String) (dflt : String) : String :=
  match s with
  | none => dflt
  | some v => if v = "" then dflt else v

/-- Name recorded for an ingredient: inventory_item?.name || Desconocido. -/
def specName (oi : Option ItemInfo) : String :=
  jsStringOr (oi.map ItemInfo.name) "Desconocido"

/-- Unit recorded for an ingredient: inventory_item?.unit_usage || empty. -/
def specUnit (oi : Option ItemInfo) : String :=
  jsStringOr (oi.map ItemInfo.unit_usage) ""

/-- Stock recorded for an ingredient: inventory_item?.current_stock || 0. -/
def specStock (oi : Option ItemInfo) : ℚ :=
  match oi with
  | none => 0
  | some it => it.current_stock

/-- One inner-loop step of consolidateIngredients: accumulate
quantity * batchUnits into the entry keyed by the line's ingredient id,
creating the entry on first sight. -/
def consolidateStep (acc : List IngredientTotal) (batchUnits : ℚ)
    (recipe : RecipeLine) : List IngredientTotal :=
  if (acc.find? (fun e => e.item_id == recipe.inventory_item_id)).isSome then
    acc.map (fun e =>
      if e.item_id == recipe.inventory_item_id then
        ⟨e.item_id, e.name, e.unit,
          e.total_needed + recipe.quantity * batchUnits, e.current_stock⟩
      else e)
  else
    acc ++ [⟨recipe.inventory_item_id, specName recipe.inventory_item,
      specUnit recipe.inventory_item, recipe.quantity * batchUnits,
      specStock recipe.inventory_item⟩]

/-- Outer-loop step of consolidateIngredients: fold all recipe lines of
one batch. -/
def consolidateBatch (acc : List IngredientTotal) (batch : BatchRow) :
    List IngredientTotal :=
  batch.recipes.foldl
    (fun a r => consolidateStep a batch.total_units_in_batch r) acc

/-- Step 3 of consolidateIngredients: missing and has_enough fields. -/
def finalizeIngredient (e : IngredientTotal) : ConsolidatedIngredient :=
  ⟨e.item_id, e.name, e.unit, e.total_needed, e.current_stock,
    max 0 (e.total_needed - e.current_stock),
    decide (e.current_stock ≥ e.total_needed)⟩

/-- consolidateIngredients from src/actions/planning.ts, as a function of
the fetched batch rows. -/
def consolidateIngredients (batches : List BatchRow) :
    List ConsolidatedIngredient :=
  (batches.foldl consolidateBatch []).map finalizeIngredient

/-- Specification-side total demand of ingredient i: the sum over all
batches of quantity-per-unit times units in the batch, over every recipe
line naming i. -/
def specTotalNeeded (batches : List BatchRow) (i : String) : ℚ :=
  (batches.map (fun b =>
    ((b.recipes.filter (fun l => l.inventory_item_id == i)).map
      (fun l => l.quantity * b.total_units_in_batch)).sum)).sum

/-- Specification-side per-line total over one batch's lines. -/
def specLineTotal (units : ℚ) (lines : List RecipeLine) (i : String) : ℚ :=
  ((lines.filter (fun l => l.inventory_item_id == i)).map
    (fun l => l.quantity * units)).sum

/-- Lookup of the accumulator entry keyed by an ingredient id. -/
def lookupTotal (acc : List IngredientTotal) (i : String) :
    Option IngredientTotal :=
  acc.find? (fun e => e.item_id == i)

/-- Keys of the consolidation accumulator. -/
def totalKeys (acc : List IngredientTotal) : List String :=
  acc.map IngredientTotal.item_id

/-- Conversion factors are strictly positive. -/
lemma conversion_factors_pos (u : UnitType) : 0 < CONVERSION_FACTORS u := by
  cases u <;> norm_num [CONVERSION_FACTORS]

/-- Compatibility is symmetric. -/
lemma areUnitsCompatible_symm (u v : UnitType) :
    areUnitsCompatible u v = areUnitsCompatible v u := by
  cases u <;> cases v <;> rfl

/-- C4 counterexample: the claim asserts compatibility of a piece unit with
itself, but the code returns false for pz against pz. -/
theorem areUnitsCompatible_pz_pz_not_true :
    ¬ (areUnitsCompatible UnitType.pz UnitType.pz = true) := by decide

/-- C4 (amended): areUnitsCompatible returns true iff both units are weight
units or both are volume units; every pair involving a piece unit, two equal
piece units included, is incompatible. -/
theorem areUnitsCompatible_iff_same_dimension (u v : UnitType) :
    areUnitsCompatible u v = true ↔
      ((u ∈ WEIGHT_UNITS ∧ v ∈ WEIGHT_UNITS) ∨
        (u ∈ VOLUME_UNITS ∧ v ∈ VOLUME_UNITS)) := by
  cases u <;> cases v <;> decide

/-- C5 counterexample: at selling price 200 and cost 100 the code returns
50, not the (price - cost) / cost * 100 = 100 that the claim specifies. -/
theorem calculateMargin_claim_false_at_200_100 :
    ¬ (calculateMargin 200 100 = (200 - 100) / 100 * 100) := by
  norm_num [calculateMargin]

/-- C5 (amended): the margin equals (price - cost) / price * 100 when the
selling price is nonzero, and 0 when the selling price is zero — the guard
and the denominator are the selling price, not the cost. -/
theorem calculateMargin_spec (price cost : ℚ) :
    (price ≠ 0 → calculateMargin price cost = (price - cost) / price * 100) ∧
    (price = 0 → calculateMargin price cost = 0) := by
  constructor
  · intro hp
    simp [calculateMargin, hp]
  · intro hp
    simp [calculateMargin, hp]

/-- Witness for C5's amended theorem at price 200, cost 100. -/
theorem calculateMargin_spec_witness :
    calculateMargin 200 100 = (200 - 100) / 200 * 100 :=
  (calculateMargin_spec 200 100).1 (by norm_num)

/-- C6 counterexample: at total cost 10 and parsed batch size -5 the code
returns 0, not the 10 / max(-5, 1) = 10 that the claim specifies. -/
theorem calculateCostPerProductUnit_claim_false :
    ¬ (calculateCostPerProductUnit 10 (some (-5)) =
        10 / ((max (-5 : ℤ) 1 : ℤ) : ℚ)) := by
  norm_num [calculateCostPerProductUnit]

/-- C6 (amended): with b the parsed batch size, the function returns
totalCost / b when b > 0, totalCost when b is 0 or the parse failed (the
JS || 1 clamp), and 0 — not totalCost — when b is negative. -/
theorem calculateCostPerProductUnit_spec (totalCost : ℚ) (p : Option ℤ) :
    (∀ n : ℤ, p = some n → 0 < n →
      calculateCostPerProductUnit totalCost p = totalCost / (n : ℚ)) ∧
    (p = some 0 ∨ p = none →
      calculateCostPerProductUnit totalCost p = totalCost) ∧
    (∀ n : ℤ, p = some n → n < 0 →
      calculateCostPerProductUnit totalCost p = 0) := by
  refine ⟨?_, ?_, ?_⟩
  · intro n hp hn
    subst hp
    have hne : n ≠ 0 := ne_of_gt hn
    simp [calculateCostPerProductUnit, hne, hn]
  · intro hp
    rcases hp with hp | hp <;> subst hp <;>
      norm_num [calculateCostPerProductUnit]
  · intro n hp hn
    subst hp
    have hne : n ≠ 0 := ne_of_lt hn
    simp [calculateCostPerProductUnit, hne, not_lt.mpr (le_of_lt hn)]

/-- Witness for C6's amended theorem at total cost 10, parsed batch size 5. -/
theorem calculateCostPerProductUnit_spec_witness :
    calculateCostPerProductUnit 10 (some 5) = 10 / ((5 : ℤ) : ℚ) :=
  (calculateCostPerProductUnit_spec 10 (some 5)).1 5 rfl (by norm_num)

/-- C7: for compatible units, converting there and back returns the original
quantity exactly (over ℚ). -/
theorem convertUnit_round_trip (q : ℚ) (a b : UnitType)
    (h : areUnitsCompatible a b = true) :
    (convertUnit q a b).bind (fun r => convertUnit r b a) = some q := by
  by_cases hab : a = b
  · subst hab
    simp [convertUnit]
  · have hba : areUnitsCompatible b a = true := by
      rw [areUnitsCompatible_symm]; exact h
    have hfa : CONVERSION_FACTORS a ≠ 0 := ne_of_gt (conversion_factors_pos a)
    have hfb : CONVERSION_FACTORS b ≠ 0 := ne_of_gt (conversion_factors_pos b)
    simp [convertUnit, hab, Ne.symm hab, h, hba]
    field_simp

/-- Witness for C7 at q = 7, kg to g. -/
theorem convertUnit_round_trip_witness :
    (convertUnit 7 UnitType.kg UnitType.g).bind
      (fun r => convertUnit r UnitType.g UnitType.kg) = some 7 :=
  convertUnit_round_trip 7 UnitType.kg UnitType.g (by decide)

/-- C10: for any piece unit u, calculateCost and getUnitCost return none even
with identical units on both sides, while convertUnit returns the quantity
unchanged — the cost functions gate on areUnitsCompatible, which rejects
every piece-unit pair. -/
theorem piece_unit_cost_none (u : UnitType) (hu : u ∈ PIECE_UNITS)
    (q c : ℚ) :
    calculateCost q u c u = none ∧ getUnitCost c u u = none ∧
    convertUnit q u u = some q := by
  fin_cases hu <;>
    exact ⟨rfl, rfl, by simp [convertUnit]⟩

/-- Witness for C10 at u = pz, q = 5, c = 3. -/
theorem piece_unit_cost_none_witness :
    calculateCost 5 UnitType.pz 3 UnitType.pz = none ∧
    getUnitCost 3 UnitType.pz UnitType.pz = none ∧
    convertUnit 5 UnitType.pz UnitType.pz = some 5 :=
  piece_unit_cost_none UnitType.pz (by decide) 5 3

/-- Ceiling of (r - b) / b is one less than the ceiling of r / b. -/
lemma ceil_sub_self_div (r b : ℚ) (hb : 0 < b) :
    ⌈(r - b) / b⌉ = ⌈r / b⌉ - 1 := by
  rw [sub_div, div_self (ne_of_gt hb), Int.ceil_sub_one]

/-- The loop emits at least one batch when both inputs are positive. -/
lemma calcBatchesLoop_ne_nil (b r : ℚ) (hb : 0 < b) (hr : 0 < r) :
    calcBatchesLoop b r ≠ [] := by
  rw [calcBatchesLoop]
  simp [hb, hr]

/-- One loop iteration decreases the ceiling measure by exactly one. -/
lemma ceil_measure_succ (b r : ℚ) (hb : 0 < b) (hr : 0 < r) :
    (⌈r / b⌉).toNat = (⌈(r - min r b) / b⌉).toNat + 1 := by
  have h1 : 0 < ⌈r / b⌉ := Int.ceil_pos.mpr (div_pos hr hb)
  rcases le_total r b with hle | hle
  · have h2 : ⌈r / b⌉ ≤ 1 := Int.ceil_le.mpr (by
      push_cast
      exact (div_le_one hb).mpr hle)
    rw [min_eq_left hle, sub_self, zero_div, Int.ceil_zero]
    omega
  · rw [min_eq_right hle, ceil_sub_self_div r b hb]
    omega

/-- The batches the loop emits sum to the remaining amount. -/
lemma calcBatchesLoop_sum (b : ℚ) (hb : 0 < b) :
    ∀ (n : ℕ) (r : ℚ), (⌈r / b⌉).toNat ≤ n → 0 ≤ r →
      (calcBatchesLoop b r).sum = r := by
  intro n
  induction n with
  | zero =>
    intro r hn hr
    have hr0 : r = 0 := by
      by_contra hne
      have hrpos : 0 < r := lt_of_le_of_ne hr (Ne.symm hne)
      have := Int.ceil_pos.mpr (div_pos hrpos hb)
      omega
    subst hr0
    rw [calcBatchesLoop]
    simp
  | succ n ih =>
    intro r hn hr
    rcases eq_or_lt_of_le hr with hr0 | hrpos
    · rw [← hr0, calcBatchesLoop]
      simp
    · rw [calcBatchesLoop, dif_pos ⟨hb, hrpos⟩]
      have hmeas := ceil_measure_succ b r hb hrpos
      have hmin : min r b ≤ r := min_le_left r b
      rw [List.sum_cons, ih (r - min r b) (by omega) (by linarith)]
      ring

/-- Every batch the loop emits is positive. -/
lemma calcBatchesLoop_pos (b : ℚ) (hb : 0 < b) :
    ∀ (n : ℕ) (r : ℚ), (⌈r / b⌉).toNat ≤ n →
      ∀ x ∈ calcBatchesLoop b r, 0 < x := by
  intro n
  induction n with
  | zero =>
    intro r hn x hx
    exfalso
    by_cases hrpos : 0 < r
    · have := Int.ceil_pos.mpr (div_pos hrpos hb)
      omega
    · rw [calcBatchesLoop, dif_neg (fun hc => hrpos hc.2)] at hx
      exact (List.not_mem_nil x) hx
  | succ n ih =>
    intro r hn x hx
    by_cases hrpos : 0 < r
    · rw [calcBatchesLoop, dif_pos ⟨hb, hrpos⟩] at hx
      have hmeas := ceil_measure_succ b r hb hrpos
      rcases List.mem_cons.mp hx with rfl | hx2
      · exact lt_min hrpos hb
      · exact ih (r - min r b) (by omega) x hx2
    · rw [calcBatchesLoop, dif_neg (fun hc => hrpos hc.2)] at hx
      exact absurd hx (List.not_mem_nil x)

/-- Every batch the loop emits except possibly the last equals the batch
size. -/
lemma calcBatchesLoop_dropLast (b : ℚ) (hb : 0 < b) :
    ∀ (n : ℕ) (r : ℚ), (⌈r / b⌉).toNat ≤ n →
      ∀ x ∈ (calcBatchesLoop b r).dropLast, x = b := by
  intro n
  induction n with
  | zero =>
    intro r hn x hx
    exfalso
    by_cases hrpos : 0 < r
    · have := Int.ceil_pos.mpr (div_pos hrpos hb)
      omega
    · rw [calcBatchesLoop, dif_neg (fun hc => hrpos hc.2)] at hx
      simp at hx
  | succ n ih =>
    intro r hn x hx
    by_cases hrpos : 0 < r
    · rw [calcBatchesLoop, dif_pos ⟨hb, hrpos⟩] at hx
      have hmeas := ceil_measure_succ b r hb hrpos
      rcases le_or_lt r b with hle | hlt
      · have htail : calcBatchesLoop b (r - min r b) = [] := by
          rw [min_eq_left hle, sub_self, calcBatchesLoop]
          simp
        rw [htail] at hx
        simp at hx
      · have hrb : 0 < r - b := by linarith
        have htail : calcBatchesLoop b (r - min r b) ≠ [] := by
          rw [min_eq_right (le_of_lt hlt)]
          exact calcBatchesLoop_ne_nil b (r - b) hb hrb
        obtain ⟨y, t, hyt⟩ := List.exists_cons_of_ne_nil htail
        rw [hyt, List.dropLast_cons₂, List.mem_cons, ← hyt] at hx
        rcases hx with rfl | hx2
        · exact min_eq_right (le_of_lt hlt)
        · exact ih (r - min r b) (by omega) x hx2
    · rw [calcBatchesLoop, dif_neg (fun hc => hrpos hc.2)] at hx
      simp at hx

/-- The loop emits exactly ceil(r / b) batches. -/
lemma calcBatchesLoop_length (b : ℚ) (hb : 0 < b) :
    ∀ (n : ℕ) (r : ℚ), (⌈r / b⌉).toNat ≤ n → 0 < r →
      (calcBatchesLoop b r).length = (⌈r / b⌉).toNat := by
  intro n
  induction n with
  | zero =>
    intro r hn hr
    exfalso
    have := Int.ceil_pos.mpr (div_pos hr hb)
    omega
  | succ n ih =>
    intro r hn hr
    rw [calcBatchesLoop, dif_pos ⟨hb, hr⟩, List.length_cons]
    have hmeas := ceil_measure_succ b r hb hr
    rcases le_or_lt r b with hle | hlt
    · have htail : calcBatchesLoop b (r - min r b) = [] := by
        rw [min_eq_left hle, sub_self, calcBatchesLoop]
        simp
      rw [htail]
      simp only [List.length_nil]
      have h1 : 0 < ⌈r / b⌉ := Int.ceil_pos.mpr (div_pos hr hb)
      have h2 : ⌈r / b⌉ ≤ 1 := Int.ceil_le.mpr (by
        push_cast
        exact (div_le_one hb).mpr hle)
      omega
    · have hrb : 0 < r - b := by linarith
      have hrec := ih (r - min r b) (by omega) (by
        rw [min_eq_right (le_of_lt hlt)]
        exact hrb)
      rw [hrec]
      omega

/-- The last batch the loop emits is r - b * (ceil(r / b) - 1). -/
lemma calcBatchesLoop_getLast (b : ℚ) (hb : 0 < b) :
    ∀ (n : ℕ) (r : ℚ), (⌈r / b⌉).toNat ≤ n → 0 < r →
      (calcBatchesLoop b r).getLast? =
        some (r - b * ((⌈r / b⌉ : ℚ) - 1)) := by
  intro n
  induction n with
  | zero =>
    intro r hn hr
    exfalso
    have := Int.ceil_pos.mpr (div_pos hr hb)
    omega
  | succ n ih =>
    intro r hn hr
    rw [calcBatchesLoop, dif_pos ⟨hb, hr⟩]
    have h1 : 0 < ⌈r / b⌉ := Int.ceil_pos.mpr (div_pos hr hb)
    rcases le_or_lt r b with hle | hlt
    · have hceil : ⌈r / b⌉ = 1 := by
        have h2 : ⌈r / b⌉ ≤ 1 := Int.ceil_le.mpr (by
          push_cast
          exact (div_le_one hb).mpr hle)
        omega
      have htail : calcBatchesLoop b (r - min r b) = [] := by
        rw [min_eq_left hle, sub_self, calcBatchesLoop]
        simp
      rw [htail, min_eq_left hle, hceil]
      norm_num
    · have hrb : 0 < r - b := by linarith
      have hmeas := ceil_measure_succ b r hb hr
      have htail : calcBatchesLoop b (r - min r b) ≠ [] := by
        rw [min_eq_right (le_of_lt hlt)]
        exact calcBatchesLoop_ne_nil b (r - b) hb hrb
      obtain ⟨y, t, hyt⟩ := List.exists_cons_of_ne_nil htail
      rw [hyt, List.getLast?_cons_cons, ← hyt]
      have hrec := ih (r - min r b) (by omega) (by
        rw [min_eq_right (le_of_lt hlt)]
        exact hrb)
      rw [min_eq_right (le_of_lt hlt)] at hrec ⊢
      rw [hrec, ceil_sub_self_div r b hb]
      congr 1
      push_cast
      ring

/-- C1: for totalUnits ≥ 0 and batchCapacity > 0 the batches returned by
calculateBatches sum to totalUnits, every batch except possibly the last
equals the capacity, and every batch is positive; for totalUnits ≤ 0 or
batchCapacity ≤ 0 the result is empty. -/
theorem calculateBatches_spec (t b : ℚ) :
    (0 ≤ t → 0 < b →
      (calculateBatches t b).sum = t ∧
      (∀ x ∈ (calculateBatches t b).dropLast, x = b) ∧
      (∀ x ∈ calculateBatches t b, 0 < x)) ∧
    (t ≤ 0 ∨ b ≤ 0 → calculateBatches t b = []) := by
  constructor
  · intro ht hb
    rcases eq_or_lt_of_le ht with ht0 | htpos
    · have hempty : calculateBatches t b = [] := by
        unfold calculateBatches
        rw [if_pos (Or.inl (le_of_eq ht0.symm))]
      rw [hempty]
      refine ⟨?_, by simp, by simp⟩
      rw [List.sum_nil, ht0]
    · have hguard : ¬(t ≤ 0 ∨ b ≤ 0) := by
        push_neg
        exact ⟨htpos, hb⟩
      have hlist : calculateBatches t b = calcBatchesLoop b t := by
        unfold calculateBatches
        rw [if_neg hguard]
      rw [hlist]
      exact ⟨calcBatchesLoop_sum b hb _ t le_rfl (le_of_lt htpos),
        calcBatchesLoop_dropLast b hb _ t le_rfl,
        calcBatchesLoop_pos b hb _ t le_rfl⟩
  · intro h
    unfold calculateBatches
    rw [if_pos h]

/-- Witness for C1 at totalUnits 65, batchCapacity 20. -/
theorem calculateBatches_spec_witness :
    (calculateBatches 65 20).sum = 65 :=
  (((calculateBatches_spec 65 20).1 (by norm_num) (by norm_num))).1

/-- C8: for positive inputs the number of batches of calculateBatches is
ceil(totalUnits / batchCapacity), which is the value of
calculateBatchCount, and the last batch is
totalUnits - batchCapacity * (batchCount - 1). -/
theorem calculateBatches_count_spec (t b : ℚ) (ht : 0 < t) (hb : 0 < b) :
    ((calculateBatches t b).length : ℤ) = calculateBatchCount t b ∧
    calculateBatchCount t b = ⌈t / b⌉ ∧
    (calculateBatches t b).getLast? =
      some (t - b * ((calculateBatchCount t b : ℚ) - 1)) := by
  have hguard : ¬(t ≤ 0 ∨ b ≤ 0) := by
    push_neg
    exact ⟨ht, hb⟩
  have hcount : calculateBatchCount t b = ⌈t / b⌉ := by
    unfold calculateBatchCount
    rw [if_neg hguard]
  have hlist : calculateBatches t b = calcBatchesLoop b t := by
    unfold calculateBatches
    rw [if_neg hguard]
  refine ⟨?_, hcount, ?_⟩
  · rw [hlist, hcount, calcBatchesLoop_length b hb _ t le_rfl ht]
    exact Int.toNat_of_nonneg (le_of_lt (Int.ceil_pos.mpr (div_pos ht hb)))
  · rw [hlist, hcount, calcBatchesLoop_getLast b hb _ t le_rfl ht]

/-- Witness for C8 at totalUnits 65, batchCapacity 20. -/
theorem calculateBatches_count_spec_witness :
    ((calculateBatches 65 20).length : ℤ) = calculateBatchCount 65 20 ∧
    calculateBatchCount 65 20 = ⌈(65 : ℚ) / 20⌉ :=
  ⟨(calculateBatches_count_spec 65 20 (by norm_num) (by norm_num)).1,
    (calculateBatches_count_spec 65 20 (by norm_num) (by norm_num)).2.1⟩

/-- With no duplicate ids, find? by id locates exactly the member row. -/
lemma find?_id_eq_of_mem {orders : List OrderRow} {o : OrderRow}
    (hmem : o ∈ orders) (hnd : (orders.map OrderRow.id).Nodup) :
    orders.find? (fun x => x.id == o.id) = some o := by
  induction orders with
  | nil => exact absurd hmem (List.not_mem_nil o)
  | cons a t ih =>
    rw [List.map_cons, List.nodup_cons] at hnd
    rcases List.mem_cons.mp hmem with rfl | hmem2
    · rw [List.find?_cons_of_pos _ (by simp)]
    · have hne : (a.id == o.id) = false := by
        rw [beq_eq_false_iff_ne]
        intro heq
        exact hnd.1 (heq ▸ List.mem_map_of_mem OrderRow.id hmem2)
      rw [List.find?_cons_of_neg _ (by simp [hne])]
      exact ih hmem2 hnd.2

/-- C9: deleteOrder removes an order exactly when its status is pending;
for an order with any other status it reports failure and leaves the
orders unchanged. -/
theorem deleteOrder_spec (orders : List OrderRow) (o : OrderRow)
    (hmem : o ∈ orders) (hnd : (orders.map OrderRow.id).Nodup) :
    (o.status = "pending" →
      deleteOrder orders o.id =
        (orders.filter (fun x => !(x.id == o.id)), true) ∧
      o ∉ (deleteOrder orders o.id).1) ∧
    (o.status ≠ "pending" → deleteOrder orders o.id = (orders, false)) := by
  have hfind := find?_id_eq_of_mem hmem hnd
  constructor
  · intro hp
    have hres : deleteOrder orders o.id =
        (orders.filter (fun x => !(x.id == o.id)), true) := by
      unfold deleteOrder
      rw [hfind]
      simp [hp]
    refine ⟨hres, ?_⟩
    rw [hres]
    intro hin
    have := List.of_mem_filter hin
    simp at this
  · intro hp
    unfold deleteOrder
    rw [hfind]
    simp [hp]

/-- Witness for C9: a pending order is deleted, and applying the theorem to
a planned order shows the rejection branch. -/
theorem deleteOrder_spec_witness :
    deleteOrder [⟨"o1", "pending"⟩, ⟨"o2", "planned"⟩] "o1" =
      ([⟨"o2", "planned"⟩], true) ∧
    deleteOrder [⟨"o1", "pending"⟩, ⟨"o2", "planned"⟩] "o2" =
      ([⟨"o1", "pending"⟩, ⟨"o2", "planned"⟩], false) := by
  constructor
  · exact (((deleteOrder_spec [⟨"o1", "pending"⟩, ⟨"o2", "planned"⟩]
      ⟨"o1", "pending"⟩ (by decide) (by decide)).1 rfl).1).trans (by decide)
  · exact (deleteOrder_spec [⟨"o1", "pending"⟩, ⟨"o2", "planned"⟩]
      ⟨"o2", "planned"⟩ (by decide) (by decide)).2 (by decide)

/-- C2: with item harina at stock 0, producing one unit of a compound that
needs 5 harina persists a harina movement of -5 through
createCompoundStock and reports success, although 0 + (-5) < 0 and the
derived stock stays untouched at 0 — while createStockMovement rejects
that very movement. The claim that every movement-recording path rejects
stock-negative movements is therefore violated by the code. -/
theorem createCompoundStock_negative_stock_bug :
    (createCompoundStock ⟨[("harina", 0)], []⟩ [⟨"harina", 5⟩]
        "mezcla" 1).2 = true ∧
    (⟨"harina", -5, "production_usage", "Usado para producir mezcla"⟩ :
        StockMovement) ∈
      (createCompoundStock ⟨[("harina", 0)], []⟩ [⟨"harina", 5⟩]
        "mezcla" 1).1.movements ∧
    getStock (createCompoundStock ⟨[("harina", 0)], []⟩ [⟨"harina", 5⟩]
        "mezcla" 1).1 "harina" = some 0 ∧
    ((0 : ℚ) + (-5) < 0) ∧
    createStockMovement ⟨[("harina", 0)], []⟩
        ⟨"harina", -5, "production_usage", "Usado para producir mezcla"⟩ =
      (⟨[("harina", 0)], []⟩, false) := by
  refine ⟨rfl, ?_, rfl, by norm_num, ?_⟩
  · simp [createCompoundStock]
  · simp [createStockMovement, getStock]

/-- Searching by id through a map that preserves ids finds the mapped
entry. -/
lemma find?_map_id_preserving (acc : List IngredientTotal)
    (f : IngredientTotal → IngredientTotal)
    (hf : ∀ e, (f e).item_id = e.item_id) (i : String) :
    (acc.map f).find? (fun e => e.item_id == i) =
      (acc.find? (fun e => e.item_id == i)).map f := by
  rw [List.find?_map]
  have hcomp : ((fun e : IngredientTotal => e.item_id == i) ∘ f) =
      fun e : IngredientTotal => e.item_id == i := by
    funext e
    simp [Function.comp, hf]
  rw [hcomp]

/-- Effect of one consolidation step on the lookup of any ingredient id:
the entry keyed by the line's id grows by quantity * units (or is created
from the line's joined item data), and every other key is untouched. -/
lemma consolidateStep_lookup (acc : List IngredientTotal) (units : ℚ)
    (l : RecipeLine) (i : String) :
    lookupTotal (consolidateStep acc units l) i =
      if l.inventory_item_id == i then
        match lookupTotal acc i with
        | some e => some ⟨e.item_id, e.name, e.unit,
            e.total_needed + l.quantity * units, e.current_stock⟩
        | none => some ⟨l.inventory_item_id, specName l.inventory_item,
            specUnit l.inventory_item, l.quantity * units,
            specStock l.inventory_item⟩
      else lookupTotal acc i := by
  have hf : ∀ e : IngredientTotal,
      ((fun e : IngredientTotal =>
        if e.item_id == l.inventory_item_id then
          (⟨e.item_id, e.name, e.unit, e.total_needed + l.quantity * units,
            e.current_stock⟩ : IngredientTotal)
        else e) e).item_id = e.item_id := by
    intro e
    by_cases hc : (e.item_id == l.inventory_item_id) = true <;> simp [hc]
  by_cases hid : l.inventory_item_id = i
  · subst hid
    rw [if_pos (by simp)]
    by_cases h : (acc.find? (fun e =>
        e.item_id == l.inventory_item_id)).isSome
    · obtain ⟨e0, he0⟩ := Option.isSome_iff_exists.mp h
      unfold lookupTotal
      rw [consolidateStep, if_pos h, find?_map_id_preserving acc _ hf, he0]
      have hp := List.find?_some he0
      simp only [] at hp
      simp [beq_iff_eq.mp hp]
    · have hnone : acc.find? (fun e =>
          e.item_id == l.inventory_item_id) = none :=
        Option.not_isSome_iff_eq_none.mp h
      unfold lookupTotal
      rw [consolidateStep, if_neg h, List.find?_append, hnone]
      simp
  · have hbe : (l.inventory_item_id == i) = false := by
      rw [beq_eq_false_iff_ne]
      exact hid
    rw [if_neg (by simp [hbe])]
    by_cases h : (acc.find? (fun e =>
        e.item_id == l.inventory_item_id)).isSome
    · unfold lookupTotal
      rw [consolidateStep, if_pos h, find?_map_id_preserving acc _ hf]
      cases hfind : acc.find? (fun e => e.item_id == i) with
      | none => simp
      | some e0 =>
        have hp := List.find?_some hfind
        simp only [] at hp
        have hne : (e0.item_id == l.inventory_item_id) = false := by
          rw [beq_eq_false_iff_ne]
          intro he
          exact hid (he ▸ (beq_iff_eq.mp hp))
        simp [beq_eq_false_iff_ne.mp hne]
    · unfold lookupTotal
      rw [consolidateStep, if_neg h, List.find?_append]
      simp [hbe]

/-- Per-line total over a cons: head contribution plus tail total. -/
lemma specLineTotal_cons (units : ℚ) (l : RecipeLine) (ls : List RecipeLine)
    (i : String) :
    specLineTotal units (l :: ls) i =
      (if l.inventory_item_id == i then l.quantity * units else 0) +
        specLineTotal units ls i := by
  unfold specLineTotal
  by_cases hc : (l.inventory_item_id == i) = true <;>
    simp [List.filter_cons, hc]

/-- An ingredient named by no line of the list has per-line total 0. -/
lemma specLineTotal_eq_zero (units : ℚ) (lines : List RecipeLine)
    (i : String)
    (h : lines.any (fun l => l.inventory_item_id == i) = false) :
    specLineTotal units lines i = 0 := by
  unfold specLineTotal
  have hnil : lines.filter (fun l => l.inventory_item_id == i) = [] := by
    rw [List.filter_eq_nil_iff]
    intro a ha
    have := List.any_eq_false.mp h a ha
    simpa using this
  rw [hnil]
  simp

/-- Lookup characterization of the inner fold of consolidateIngredients
over the recipe lines of one batch, relative to a consistent item table:
an existing entry grows by the lines' total for its key, a key first seen
here is created with the item table's data, and other keys are absent. -/
lemma foldl_step_lookup (units : ℚ) (itemInfo : String → Option ItemInfo) :
    ∀ (lines : List RecipeLine) (acc : List IngredientTotal),
      (∀ l ∈ lines, l.inventory_item = itemInfo l.inventory_item_id) →
      ∀ i : String,
        lookupTotal
            (lines.foldl (fun a r => consolidateStep a units r) acc) i =
          match lookupTotal acc i with
          | some e => some ⟨e.item_id, e.name, e.unit,
              e.total_needed + specLineTotal units lines i, e.current_stock⟩
          | none =>
            if lines.any (fun l => l.inventory_item_id == i) then
              some ⟨i, specName (itemInfo i), specUnit (itemInfo i),
                specLineTotal units lines i, specStock (itemInfo i)⟩
            else none := by
  intro lines
  induction lines with
  | nil =>
    intro acc hcons i
    rw [List.foldl_nil]
    cases hacc : lookupTotal acc i with
    | none => simp [specLineTotal]
    | some e => simp [specLineTotal]
  | cons l ls ih =>
    intro acc hcons i
    rw [List.foldl_cons,
      ih (consolidateStep acc units l)
        (fun x hx => hcons x (List.mem_cons_of_mem l hx)) i,
      consolidateStep_lookup acc units l i, specLineTotal_cons]
    by_cases hid : (l.inventory_item_id == i) = true
    · rw [if_pos hid]
      cases hacc : lookupTotal acc i with
      | some e => simp [hid, add_assoc]
      | none =>
        have hli : l.inventory_item = itemInfo l.inventory_item_id :=
          hcons l (List.mem_cons_self l ls)
        have hideq : l.inventory_item_id = i := beq_iff_eq.mp hid
        simp [hid, hli, hideq]
    · rw [if_neg hid]
      cases hacc : lookupTotal acc i with
      | some e => simp [hid]
      | none => simp [hid]

/-- Per-batch total over a cons of batches. -/
lemma specTotalNeeded_cons (b : BatchRow) (bs : List BatchRow) (i : String) :
    specTotalNeeded (b :: bs) i =
      specLineTotal b.total_units_in_batch b.recipes i +
        specTotalNeeded bs i := by
  simp [specTotalNeeded, specLineTotal]

/-- Lookup characterization of the whole consolidation fold over all
batches, relative to a consistent item table. -/
lemma foldl_batch_lookup (itemInfo : String → Option ItemInfo) :
    ∀ (batches : List BatchRow) (acc : List IngredientTotal),
      (∀ b ∈ batches, ∀ l ∈ b.recipes,
        l.inventory_item = itemInfo l.inventory_item_id) →
      ∀ i : String,
        lookupTotal (batches.foldl consolidateBatch acc) i =
          match lookupTotal acc i with
          | some e => some ⟨e.item_id, e.name, e.unit,
              e.total_needed + specTotalNeeded batches i, e.current_stock⟩
          | none =>
            if batches.any (fun b =>
                b.recipes.any (fun l => l.inventory_item_id == i)) then
              some ⟨i, specName (itemInfo i), specUnit (itemInfo i),
                specTotalNeeded batches i, specStock (itemInfo i)⟩
            else none := by
  intro batches
  induction batches with
  | nil =>
    intro acc hcons i
    rw [List.foldl_nil]
    cases hacc : lookupTotal acc i with
    | none => simp [specTotalNeeded]
    | some e => simp [specTotalNeeded]
  | cons b bs ih =>
    intro acc hcons i
    rw [List.foldl_cons]
    have hinner := foldl_step_lookup b.total_units_in_batch itemInfo
      b.recipes acc
      (fun l hl => hcons b (List.mem_cons_self b bs) l hl) i
    rw [ih (consolidateBatch acc b)
        (fun x hx l hl => hcons x (List.mem_cons_of_mem b hx) l hl) i,
      show consolidateBatch acc b =
        b.recipes.foldl
          (fun a r => consolidateStep a b.total_units_in_batch r) acc from
        rfl,
      hinner, specTotalNeeded_cons]
    by_cases hany : (b.recipes.any (fun l => l.inventory_item_id == i)) = true
    · cases hacc : lookupTotal acc i with
      | some e => simp [hany, add_assoc]
      | none => simp [hany]
    · have hzero := specLineTotal_eq_zero b.total_units_in_batch b.recipes i
        (Bool.eq_false_iff.mpr hany)
      cases hacc : lookupTotal acc i with
      | some e => simp [hany, hzero]
      | none => simp [hany, hzero]

/-- One consolidation step keeps the accumulator keys duplicate-free. -/
lemma consolidateStep_keys_nodup (acc : List IngredientTotal) (units : ℚ)
    (l : RecipeLine) (h : (totalKeys acc).Nodup) :
    (totalKeys (consolidateStep acc units l)).Nodup := by
  unfold consolidateStep totalKeys
  by_cases hc : (acc.find? (fun e =>
      e.item_id == l.inventory_item_id)).isSome
  · rw [if_pos hc, List.map_map]
    have hcomp : (IngredientTotal.item_id ∘ fun e : IngredientTotal =>
        if e.item_id == l.inventory_item_id then
          (⟨e.item_id, e.name, e.unit,
            e.total_needed + l.quantity * units, e.current_stock⟩ :
            IngredientTotal)
        else e) = IngredientTotal.item_id := by
      funext e
      by_cases he : (e.item_id == l.inventory_item_id) = true <;>
        simp [Function.comp, he]
    rw [hcomp]
    exact h
  · rw [if_neg hc, List.map_append]
    have hnm : l.inventory_item_id ∉ acc.map IngredientTotal.item_id := by
      intro hmem
      obtain ⟨e, he, heq⟩ := List.mem_map.mp hmem
      have hnone := List.find?_eq_none.mp
        (Option.not_isSome_iff_eq_none.mp hc) e he
      simp [heq] at hnone
    simp only [List.map_cons, List.map_nil]
    rw [List.nodup_append]
    refine ⟨h, List.nodup_singleton _, ?_⟩
    intro a ha hb
    rw [List.mem_singleton] at hb
    exact hnm (hb ▸ ha)

/-- The inner fold keeps the accumulator keys duplicate-free. -/
lemma foldl_step_keys_nodup (units : ℚ) :
    ∀ (lines : List RecipeLine) (acc : List IngredientTotal),
      (totalKeys acc).Nodup →
      (totalKeys
        (lines.foldl (fun a r => consolidateStep a units r) acc)).Nodup := by
  intro lines
  induction lines with
  | nil =>
    intro acc h
    exact h
  | cons l ls ih =>
    intro acc h
    rw [List.foldl_cons]
    exact ih _ (consolidateStep_keys_nodup acc units l h)

/-- The whole consolidation fold keeps the keys duplicate-free. -/
lemma foldl_batch_keys_nodup :
    ∀ (batches : List BatchRow) (acc : List IngredientTotal),
      (totalKeys acc).Nodup →
      (totalKeys (batches.foldl consolidateBatch acc)).Nodup := by
  intro batches
  induction batches with
  | nil =>
    intro acc h
    exact h
  | cons b bs ih =>
    intro acc h
    rw [List.foldl_cons]
    exact ih _ (foldl_step_keys_nodup b.total_units_in_batch b.recipes acc h)

/-- With duplicate-free keys, lookup by a member's key returns that
member. -/
lemma lookupTotal_of_mem {acc : List IngredientTotal} {e : IngredientTotal}
    (hmem : e ∈ acc) (hnd : (totalKeys acc).Nodup) :
    lookupTotal acc e.item_id = some e := by
  induction acc with
  | nil => exact absurd hmem (List.not_mem_nil e)
  | cons a t ih =>
    rw [totalKeys, List.map_cons, List.nodup_cons] at hnd
    rcases List.mem_cons.mp hmem with rfl | hmem2
    · unfold lookupTotal
      rw [List.find?_cons_of_pos _ (by simp)]
    · have hne : (a.item_id == e.item_id) = false := by
        rw [beq_eq_false_iff_ne]
        intro heq
        exact hnd.1
          (heq ▸ List.mem_map_of_mem IngredientTotal.item_id hmem2)
      unfold lookupTotal
      rw [List.find?_cons_of_neg _ (by simp [hne])]
      exact ih hmem2 hnd.2

/-- C3: relative to a consistent item table (every recipe line carries the
table's data for its ingredient id), consolidateIngredients emits exactly
one record per distinct ingredient id appearing in the batches, whose
total_needed is the sum over all batches of quantity-per-unit times units
in the batch, whose current_stock is the table's stock, with
missing = max(0, total_needed - current_stock) and
has_enough = (current_stock >= total_needed); an ingredient shared by
several products' recipes is merged, never double-counted. -/
theorem consolidateIngredients_spec (batches : List BatchRow)
    (itemInfo : String → Option ItemInfo)
    (hcons : ∀ b ∈ batches, ∀ l ∈ b.recipes,
      l.inventory_item = itemInfo l.inventory_item_id) :
    ((consolidateIngredients batches).map
        ConsolidatedIngredient.item_id).Nodup ∧
    (∀ i : String,
      (∃ e ∈ consolidateIngredients batches, e.item_id = i) ↔
        (∃ b ∈ batches, ∃ l ∈ b.recipes, l.inventory_item_id = i)) ∧
    (∀ e ∈ consolidateIngredients batches,
      e.total_needed = specTotalNeeded batches e.item_id ∧
      e.current_stock = specStock (itemInfo e.item_id) ∧
      e.missing = max 0 (e.total_needed - e.current_stock) ∧
      (e.has_enough = true ↔ e.total_needed ≤ e.current_stock)) := by
  have hnd : (totalKeys (batches.foldl consolidateBatch [])).Nodup :=
    foldl_batch_keys_nodup batches [] (by simp [totalKeys])
  have hchar2 : ∀ i : String,
      lookupTotal (batches.foldl consolidateBatch []) i =
        if batches.any (fun b =>
            b.recipes.any (fun l => l.inventory_item_id == i)) then
          some ⟨i, specName (itemInfo i), specUnit (itemInfo i),
            specTotalNeeded batches i, specStock (itemInfo i)⟩
        else none :=
    fun i => (foldl_batch_lookup itemInfo batches [] hcons i).trans rfl
  refine ⟨?_, ?_, ?_⟩
  · unfold consolidateIngredients
    rw [List.map_map]
    have hcomp : (ConsolidatedIngredient.item_id ∘ finalizeIngredient) =
        IngredientTotal.item_id := rfl
    rw [hcomp]
    exact hnd
  · intro i
    constructor
    · rintro ⟨e, he, rfl⟩
      obtain ⟨e', he'F, hfe⟩ := List.mem_map.mp he
      have hlk := lookupTotal_of_mem he'F hnd
      rw [hchar2 e'.item_id] at hlk
      by_cases hc : (batches.any (fun b =>
          b.recipes.any (fun l =>
            l.inventory_item_id == e'.item_id))) = true
      · obtain ⟨b, hbmem, hbl⟩ := List.any_eq_true.mp hc
        obtain ⟨l, hlmem, hleq⟩ := List.any_eq_true.mp hbl
        refine ⟨b, hbmem, l, hlmem, ?_⟩
        rw [← hfe]
        exact beq_iff_eq.mp hleq
      · rw [if_neg hc] at hlk
        exact absurd hlk (by simp)
    · rintro ⟨b, hb, l, hl, hleq⟩
      have hc : (batches.any (fun b =>
          b.recipes.any (fun l => l.inventory_item_id == i))) = true :=
        List.any_eq_true.mpr
          ⟨b, hb, List.any_eq_true.mpr ⟨l, hl, beq_iff_eq.mpr hleq⟩⟩
      have hlk := hchar2 i
      rw [if_pos hc] at hlk
      have hmem := List.mem_of_find?_eq_some hlk
      exact ⟨finalizeIngredient _,
        List.mem_map_of_mem finalizeIngredient hmem, rfl⟩
  · intro e he
    obtain ⟨e', he'F, hfe⟩ := List.mem_map.mp he
    have hlk := lookupTotal_of_mem he'F hnd
    rw [hchar2 e'.item_id] at hlk
    by_cases hc : (batches.any (fun b =>
        b.recipes.any (fun l => l.inventory_item_id == e'.item_id))) = true
    · rw [if_pos hc] at hlk
      have hinj := Option.some.inj hlk
      have htot : e'.total_needed = specTotalNeeded batches e'.item_id :=
        (congrArg IngredientTotal.total_needed hinj).symm
      have hstock : e'.current_stock = specStock (itemInfo e'.item_id) :=
        (congrArg IngredientTotal.current_stock hinj).symm
      subst hfe
      exact ⟨htot, hstock, rfl, decide_eq_true_iff⟩
    · rw [if_neg hc] at hlk
      exact absurd hlk (by simp)

/-- Witness for C3: two batches of different products sharing the
ingredient harina consolidate to duplicate-free ingredient records. -/
theorem consolidateIngredients_spec_witness :
    ((consolidateIngredients
        [⟨[⟨"harina", 2, some ⟨"Harina", "g", 100⟩⟩], 10⟩,
         ⟨[⟨"harina", 1, some ⟨"Harina", "g", 100⟩⟩,
           ⟨"azucar", 3, some ⟨"Azucar", "g", 50⟩⟩], 20⟩]).map
        ConsolidatedIngredient.item_id).Nodup :=
  (consolidateIngredients_spec
    [⟨[⟨"harina", 2, some ⟨"Harina", "g", 100⟩⟩], 10⟩,
     ⟨[⟨"harina", 1, some ⟨"Harina", "g", 100⟩⟩,
       ⟨"azucar", 3, some ⟨"Azucar", "g", 50⟩⟩], 20⟩]
    (fun i => if i == "harina" then some ⟨"Harina", "g", 100⟩
      else if i == "azucar" then some ⟨"Azucar", "g", 50⟩ else none)
    (by decide)).1
